import Mathlib

/-!
Shallow embedding of the trade replication and execution engine of the
polymarket copy-trading bot.

Conventions of the embedding:
* JS `number` values are modelled as exact rationals (`ℚ`); `Math.floor` is
  `Int.floor` (`⌊·⌋`), `Math.round` is Mathlib's `round` (half-up, which is
  what JS `Math.round` does), `Math.min`/`Math.max` are `min`/`max`,
  `Math.abs` is `|·|`.  The `toFixed`/`parseFloat` round-trips in the source
  exist only to strip binary floating-point artifacts and are the identity
  in exact arithmetic.
* JS `Map`s (insertion ordered, unique keys, values mutated in place) are
  modelled as insertion-ordered lists; mutating the value found for a key is
  replacing the first entry with that key.
* The network is modelled as an explicit list of environment steps, one per
  loop iteration (the fetched order book plus the exchange's response to the
  submitted order).  A runner consumes the list and returns `none` when the
  loop is still running after exhausting the supplied steps, so termination
  statements quantify over the length of the supplied environment.
* Configuration read from `ENV` (`RETRY_LIMIT`, `SKIP_SLIPPAGE_CHECK`, the
  tier multiplier) is passed as an explicit parameter.
-/

namespace CopyBot

/-! ### Rounding helpers (order utility module, lines 21-29) -/

/-- `roundToDecimals`: floor `value` to `decimals` decimal places. -/
def roundToDecimals (value : ℚ) (decimals : ℕ) : ℚ :=
  let factor : ℚ := 10 ^ decimals
  ⌊value * factor⌋ / factor

/-- Taker/USD amounts: 2 decimals. -/
def roundAmount (amount : ℚ) : ℚ := roundToDecimals amount 2

/-- Maker/token amounts: 4 decimals. -/
def roundTokens (tokens : ℚ) : ℚ := roundToDecimals tokens 4

/-- Prices: 2 decimals. -/
def roundPrice (price : ℚ) : ℚ := roundToDecimals price 2

/-! ### Exchange-imposed and configured constants -/

def MIN_ORDER_SIZE_USD : ℚ := 1/10

def MIN_ORDER_SIZE_TOKENS : ℚ := 1/10

def TAKER_MIN_TOKENS : ℚ := 5

def MAKER_MIN_USD : ℚ := 1

def MIN_TOKENS_FOR_ORDER : ℚ := 5

def ARB_MAX_COST_BASIS : ℚ := 95/100

def ARB_MAX_IMBALANCE : ℚ := 1/4

/-! ### Error-message classification (order utility module, lines 70-76 and
the buy branch, lines 429-453) -/

/-- Substring test: `needle` occurs somewhere in `hay`
(JS `String.prototype.includes`). -/
def containsSub (hay needle : String) : Bool :=
  decide (needle.toList <:+: hay.toList)

/-- `message.toLowerCase()`, modelled per character (the error strings
involved are ASCII, where JS `toLowerCase` is exactly per-character case
folding). -/
def toLowerChars (s : String) : List Char := s.toList.map Char.toLower

def isInsufficientBalanceOrAllowanceError (message : Option String) : Bool :=
  match message with
  | none => false
  | some m =>
    let lower := toLowerChars m
    decide ("not enough balance".toList <:+: lower) ||
      decide ("allowance".toList <:+: lower)

def isSizeMinError (message : Option String) : Bool :=
  match message with
  | none => false
  | some m => containsSub m "lower than the minimum: 5"

def isDecimalError (message : Option String) : Bool :=
  match message with
  | none => false
  | some m => containsSub m "decimal" || containsSub m "accuracy"

/-! ### Risk gate state (trade executor module, lines 65-96) -/

/-- One recorded side of a market (`AssetExecution`). -/
structure AssetExecution where
  asset : String
  quantity : ℚ
  totalCost : ℚ
  avgPrice : ℚ
deriving DecidableEq

/-- `MarketTracker`: up to two dynamically discovered sides per market.
The JS `assets` field is a `Map` keyed by asset id; it is modelled as an
insertion-ordered list (keys unique in every reachable state). -/
structure MarketTracker where
  conditionId : String
  slug : Option String
  assets : List AssetExecution
deriving DecidableEq

/-- The process-wide `marketTrackers : Map conditionId MarketTracker`. -/
abbrev MarketState := List MarketTracker

/-- `if (slug && !tracker.slug) tracker.slug = slug`. -/
def setSlugIfMissing (t : MarketTracker) (slug : Option String) : MarketTracker :=
  match slug, t.slug with
  | some s, none => { t with slug := some s }
  | _, _ => t

/-- In-place mutation of the value stored for a key of a JS `Map`:
replace the first tracker with the same `conditionId`. -/
def replaceTracker : MarketState → MarketTracker → MarketState
  | [], _ => []
  | u :: us, t =>
    if u.conditionId = t.conditionId then t :: us else u :: replaceTracker us t

/-- `getMarketTracker` (lines 86-96): get or create the tracker for a
condition id, backfilling a missing slug; returns the tracker together with
the updated map. -/
def getMarketTracker (s : MarketState) (conditionId : String) (slug : Option String) :
    MarketTracker × MarketState :=
  match s.find? (fun t => t.conditionId == conditionId) with
  | none =>
    let t : MarketTracker := ⟨conditionId, slug, []⟩
    (t, s ++ [t])
  | some t =>
    let t' := setSlugIfMissing t slug
    (t', replaceTracker s t')

/-- Replace the first recorded side with the given asset id. -/
def replaceAsset : List AssetExecution → AssetExecution → List AssetExecution
  | [], _ => []
  | u :: us, a => if u.asset = a.asset then a :: us else u :: replaceAsset us a

/-- `recordExecution` (lines 101-144): accumulate an executed trade into the
market tracker (logging omitted). -/
def recordExecution (s : MarketState) (conditionId asset : String)
    (quantity cost : ℚ) (slug : Option String) : MarketState :=
  let ts := getMarketTracker s conditionId slug
  let tracker := ts.1
  let newAssets :=
    match tracker.assets.find? (fun a => a.asset == asset) with
    | some existing =>
      replaceAsset tracker.assets
        { existing with
          quantity := existing.quantity + quantity
          totalCost := existing.totalCost + cost
          avgPrice := (existing.totalCost + cost) / (existing.quantity + quantity) }
    | none => tracker.assets ++ [⟨asset, quantity, cost, cost / quantity⟩]
  replaceTracker ts.2 { tracker with assets := newAssets }

/-! ### The arb check (trade executor module, lines 152-240)

The pure computation on the tracker's side list is factored out as
`checkArbOnAssets`; the local `let` bindings of the source become the named
helper functions below so that the theorems can speak about the current and
prospective basis/imbalance the source computes. -/

/-- What we have already executed for THIS asset (`tracker.assets.get(thisAsset)`). -/
def thisSide (assets : List AssetExecution) (thisAsset : String) : Option AssetExecution :=
  assets.find? (fun a => a.asset == thisAsset)

/-- `currentThisQty = thisExisting?.quantity || 0`. -/
def currentThisQty (assets : List AssetExecution) (thisAsset : String) : ℚ :=
  ((thisSide assets thisAsset).map (fun a => a.quantity)).getD 0

/-- `currentThisCost = thisExisting?.totalCost || 0`. -/
def currentThisCost (assets : List AssetExecution) (thisAsset : String) : ℚ :=
  ((thisSide assets thisAsset).map (fun a => a.totalCost)).getD 0

/-- The first recorded side with a different asset id (the `for` loop that
finds the opposite side, lines 180-186). -/
def findOtherAsset (assets : List AssetExecution) (thisAsset : String) :
    Option AssetExecution :=
  assets.find? (fun a => a.asset != thisAsset)

/-- `newThisQty = currentThisQty + newQuantity`. -/
def prospectiveThisQty (assets : List AssetExecution) (thisAsset : String)
    (newQuantity : ℚ) : ℚ :=
  currentThisQty assets thisAsset + newQuantity

/-- `newThisCost = currentThisCost + newQuantity * newAvgPrice`. -/
def prospectiveThisCost (assets : List AssetExecution) (thisAsset : String)
    (newQuantity newAvgPrice : ℚ) : ℚ :=
  currentThisCost assets thisAsset + newQuantity * newAvgPrice

/-- `currentCostBasis = currentThisAvgPrice + otherAvgPrice` (line 199). -/
def currentCostBasis (assets : List AssetExecution) (thisAsset : String)
    (other : AssetExecution) : ℚ :=
  (if 0 < currentThisQty assets thisAsset then
    currentThisCost assets thisAsset / currentThisQty assets thisAsset
  else 0) + other.avgPrice

/-- `newCostBasis = newThisAvgPrice + otherAvgPrice` (line 204). -/
def prospectiveCostBasis (assets : List AssetExecution) (thisAsset : String)
    (newQuantity newAvgPrice : ℚ) (other : AssetExecution) : ℚ :=
  prospectiveThisCost assets thisAsset newQuantity newAvgPrice /
    prospectiveThisQty assets thisAsset newQuantity + other.avgPrice

/-- `currentImbalance` (line 201). -/
def currentImbalance (assets : List AssetExecution) (thisAsset : String)
    (other : AssetExecution) : ℚ :=
  let tot := currentThisQty assets thisAsset + other.quantity
  if 0 < tot then |currentThisQty assets thisAsset - other.quantity| / tot else 0

/-- `newImbalance` (line 206). -/
def prospectiveImbalance (assets : List AssetExecution) (thisAsset : String)
    (newQuantity : ℚ) (other : AssetExecution) : ℚ :=
  |prospectiveThisQty assets thisAsset newQuantity - other.quantity| /
    (prospectiveThisQty assets thisAsset newQuantity + other.quantity)

/-- The result record of the arb check (the human-readable `reason` string
is omitted). -/
structure ArbCheckResult where
  ok : Bool
  costBasis : ℚ
  imbalance : ℚ
deriving DecidableEq

/-- The decision logic of `checkArbBeforeExecution` on the tracker's side
list (lines 167-239). -/
def checkArbOnAssets (assets : List AssetExecution) (thisAsset : String)
    (newQuantity newAvgPrice : ℚ) : ArbCheckResult :=
  match findOtherAsset assets thisAsset with
  | none => ⟨true, 0, 0⟩
  | some other =>
    if other.quantity = 0 then ⟨true, 0, 0⟩
    else
      let newCB := prospectiveCostBasis assets thisAsset newQuantity newAvgPrice other
      let curCB := currentCostBasis assets thisAsset other
      let newImb := prospectiveImbalance assets thisAsset newQuantity other
      let curImb := currentImbalance assets thisAsset other
      if ARB_MAX_COST_BASIS ≤ newCB ∧ curCB < ARB_MAX_COST_BASIS then
        ⟨false, newCB, newImb⟩
      else if curImb < newImb ∧ ARB_MAX_IMBALANCE < newImb then
        ⟨false, newCB, newImb⟩
      else ⟨true, newCB, newImb⟩

/-- `checkArbBeforeExecution` (lines 152-240): looks up (or creates) the
market tracker and decides; returns the result together with the updated
process-wide tracker map. -/
def checkArbBeforeExecution (s : MarketState) (conditionId thisAsset : String)
    (newQuantity newAvgPrice : ℚ) (slug : Option String) :
    ArbCheckResult × MarketState :=
  let ts := getMarketTracker s conditionId slug
  (checkArbOnAssets ts.1.assets thisAsset newQuantity newAvgPrice, ts.2)

/-- The side list the check reads for a given call. -/
def trackerAssets (s : MarketState) (conditionId : String) (slug : Option String) :
    List AssetExecution :=
  (getMarketTracker s conditionId slug).1.assets

/-! ### Aggregation buffer (trade executor module, lines 36-54 and 277-347)

Timestamps and slugs are irrelevant to the buffered arithmetic and are
omitted from the record. -/

structure TradeWithUser where
  userAddress : String
  conditionId : String
  asset : String
  side : String
  usdcSize : ℚ
  price : ℚ
  scaledUsdcSize : Option ℚ
deriving DecidableEq

structure AggregatedTrade where
  userAddress : String
  conditionId : String
  asset : String
  side : String
  trades : List TradeWithUser
  totalRawUsdcSize : ℚ
  totalScaledUsdcSize : ℚ
  averagePrice : ℚ
deriving DecidableEq

/-- The `tradeAggregationBuffer : Map key AggregatedTrade`. -/
abbrev AggregationBuffer := List (String × AggregatedTrade)

/-- `getAggregationKey` (lines 277-279). -/
def getAggregationKey (t : TradeWithUser) : String :=
  t.userAddress ++ ":" ++ t.conditionId ++ ":" ++ t.asset

/-- Replace the first entry stored under a key. -/
def replaceBufferEntry : AggregationBuffer → String → AggregatedTrade → AggregationBuffer
  | [], _, _ => []
  | kv :: rest, key, agg =>
    if kv.1 = key then (key, agg) :: rest else kv :: replaceBufferEntry rest key agg

/-- `addToAggregationBuffer` (lines 284-322): merge a trade into the keyed
accumulator, recomputing the value-weighted average price, or create a new
accumulator on first contribution. -/
def addToAggregationBuffer (buffer : AggregationBuffer) (trade : TradeWithUser) :
    AggregationBuffer :=
  let key := getAggregationKey trade
  let scaledSize := trade.scaledUsdcSize.getD trade.usdcSize
  match buffer.find? (fun kv => kv.1 == key) with
  | some kv =>
    let existing := kv.2
    let trades := existing.trades ++ [trade]
    let totalRaw := existing.totalRawUsdcSize + trade.usdcSize
    let totalValue := trades.foldl (fun sum t => sum + t.usdcSize * t.price) 0
    replaceBufferEntry buffer key
      { existing with
        trades := trades
        totalRawUsdcSize := totalRaw
        totalScaledUsdcSize := existing.totalScaledUsdcSize + scaledSize
        averagePrice := totalValue / totalRaw }
  | none =>
    buffer ++ [(key,
      { userAddress := trade.userAddress
        conditionId := trade.conditionId
        asset := trade.asset
        side := trade.side
        trades := [trade]
        totalRawUsdcSize := trade.usdcSize
        totalScaledUsdcSize := scaledSize
        averagePrice := trade.price })]

/-- Token total derived from an accumulator:
`agg.averagePrice > 0 ? agg.totalScaledUsdcSize / agg.averagePrice : 0`. -/
def totalTokensOf (agg : AggregatedTrade) : ℚ :=
  if 0 < agg.averagePrice then agg.totalScaledUsdcSize / agg.averagePrice else 0

/-- `getReadyAggregations` (lines 327-347): release (and delete from the
buffer) every accumulator whose derived token total meets the threshold;
returns the released accumulators together with the remaining buffer. -/
def getReadyAggregations : AggregationBuffer → List AggregatedTrade × AggregationBuffer
  | [] => ([], [])
  | kv :: rest =>
    let r := getReadyAggregations rest
    if MIN_TOKENS_FOR_ORDER ≤ totalTokensOf kv.2 then (kv.2 :: r.1, r.2)
    else (r.1, kv :: r.2)

/-! ### Order books and environment steps (order utility module) -/

/-- One price level of the unsorted order book. -/
structure BookLevel where
  price : ℚ
  size : ℚ
deriving DecidableEq

/-- `bids.reduce((max, bid) => parseFloat(bid.price) > parseFloat(max.price) ? bid : max, bids[0])`. -/
def maxPriceBid (bids : List BookLevel) (first : BookLevel) : BookLevel :=
  bids.foldl (fun best b => if best.price < b.price then b else best) first

/-- `asks.reduce((min, ask) => parseFloat(ask.price) < parseFloat(min.price) ? ask : min, asks[0])`. -/
def minPriceAsk (asks : List BookLevel) (first : BookLevel) : BookLevel :=
  asks.foldl (fun best a => if a.price < best.price then a else best) first

/-- The exchange's response to a posted order. -/
structure OrderResult where
  success : Bool
  error : Option String
deriving DecidableEq

/-- The final write-back to the activity store for the processed trade
(`updateOne` payload: `bot`, optional `botExcutedTime`, optional
`myBoughtSize`). -/
structure TradeRecordUpdate where
  bot : Bool
  botExcutedTime : Option ℕ
  myBoughtSize : Option ℚ
deriving DecidableEq

/-! ### MERGE branch (order utility module, lines 91-179) -/

/-- A submitted market-priced sell (MERGE and SELL branches). -/
structure SellOrder where
  amount : ℚ
  price : ℚ
deriving DecidableEq

/-- Environment of one MERGE/SELL loop iteration: the fetched order book's
bids and the exchange's response to the order (ignored when no order is
submitted). -/
structure MergeEnvStep where
  bids : List BookLevel
  resp : OrderResult
deriving DecidableEq

structure MergeState where
  remaining : ℚ
  retry : ℕ
deriving DecidableEq

inductive MergeOutcome where
  | completed
  | exhausted
  | emptyBook
  | fundsAbort
deriving DecidableEq

/-- The order the MERGE iteration submits for a given state and bid list
(lines 119-139): `none` when the book has no bids. -/
def mergeOrder (st : MergeState) (bids : List BookLevel) : Option SellOrder :=
  match bids with
  | [] => none
  | b :: rest =>
    let best := maxPriceBid (b :: rest) b
    let amount :=
      if st.remaining ≤ best.size then roundTokens st.remaining
      else roundTokens best.size
    some ⟨amount, roundPrice best.price⟩

structure MergeRun where
  outcome : MergeOutcome
  final : MergeState
  orders : List SellOrder
  leftover : List MergeEnvStep
deriving DecidableEq

/-- The MERGE `while (remaining > 0 && retry < RETRY_LIMIT)` loop
(lines 111-167), driven by a list of environment steps; `none` means the
loop is still running after consuming the whole list.  `orders` collects
every submitted order; `leftover` is the unconsumed environment. -/
def runMerge (limit : ℕ) : List MergeEnvStep → MergeState → Option MergeRun
  | env, st =>
    if st.remaining ≤ 0 then some ⟨.completed, st, [], env⟩
    else if limit ≤ st.retry then some ⟨.exhausted, st, [], env⟩
    else
      match env with
      | [] => none
      | e :: rest =>
        match mergeOrder st e.bids with
        | none => some ⟨.emptyBook, st, [], rest⟩
        | some ord =>
          if e.resp.success then
            (runMerge limit rest ⟨st.remaining - ord.amount, 0⟩).map
              (fun r => { r with orders := ord :: r.orders })
          else if isInsufficientBalanceOrAllowanceError e.resp.error then
            some ⟨.fundsAbort, st, [ord], rest⟩
          else
            (runMerge limit rest ⟨st.remaining, st.retry + 1⟩).map
              (fun r => { r with orders := ord :: r.orders })

/-- Final activity-store write of the MERGE branch (lines 168-179). -/
def mergeFinalUpdate (limit : ℕ) (o : MergeOutcome) (st : MergeState) :
    TradeRecordUpdate :=
  match o with
  | .fundsAbort => ⟨true, some limit, none⟩
  | _ => if limit ≤ st.retry then ⟨true, some st.retry, none⟩ else ⟨true, none, none⟩

/-! ### BUY branch (order utility module, lines 180-496) -/

inductive OrderStyle where
  | FOK
  | GTC
deriving DecidableEq

/-- A fully priced buy order as handed to the exchange client. -/
structure BuyOrder where
  style : OrderStyle
  price : ℚ
  tokens : ℚ
  usd : ℚ
deriving DecidableEq

/-- The reasons the BUY loop breaks before submitting an order. -/
inductive BuyAbort where
  | noAsks
  | slippage
  | belowMinUsd
  | tooSmall
  | zeroTokens
deriving DecidableEq

inductive BuyPlan where
  | abort (a : BuyAbort)
  | submit (ord : BuyOrder)
deriving DecidableEq

/-- GTC maker price selection (lines 287-297): 2% of best ask or $0.01,
whichever larger, below best ask; capped by the trader's price; forced
strictly below best ask. -/
def buySelectPrice (traderPrice bestAskPrice : ℚ) : ℚ :=
  let buffer := max (1/100) (bestAskPrice * (2/100))
  let makerPrice := roundPrice (bestAskPrice - buffer)
  let price := min traderPrice makerPrice
  if bestAskPrice ≤ price then roundPrice (bestAskPrice - 1/100) else price

/-- The precision block (lines 307-342), in integer cent arithmetic. -/
def mkBuyOrder (useFOK : Bool) (price remaining : ℚ) : BuyOrder :=
  let priceCents : ℤ := round (price * 100)
  let finalPrice : ℚ := (priceCents : ℚ) / 100
  if useFOK then
    let usdCents : ℤ := ⌊remaining * 100⌋
    let finalUsdCost : ℚ := (usdCents : ℚ) / 100
    let tokensTenThousandths : ℤ := ⌊finalUsdCost / finalPrice * 10000⌋
    ⟨.FOK, finalPrice, (tokensTenThousandths : ℚ) / 10000, finalUsdCost⟩
  else
    let tokensCents : ℤ := ⌊remaining * 10000 / (priceCents : ℚ)⌋
    ⟨.GTC, finalPrice, (tokensCents : ℚ) / 100,
      ((tokensCents * priceCents : ℤ) : ℚ) / 10000⟩

/-- One BUY iteration up to (and including) building the order
(lines 224-354): book scan, slippage guard, minimum check, order-style
selection and precision rules. -/
def buyPlan (skipSlippage : Bool) (tradePrice remaining : ℚ)
    (asks : List BookLevel) : BuyPlan :=
  match asks with
  | [] => .abort .noAsks
  | a :: rest =>
    let best := minPriceAsk (a :: rest) a
    if ¬skipSlippage ∧ tradePrice * (11/10) < best.price then .abort .slippage
    else if remaining < MIN_ORDER_SIZE_USD then .abort .belowMinUsd
    else
      let traderPrice := roundPrice tradePrice
      let bestAskPrice := roundPrice best.price
      let approxTokens := remaining / traderPrice
      if MAKER_MIN_USD ≤ remaining then
        let ord := mkBuyOrder true bestAskPrice remaining
        if ord.tokens = 0 then .abort .zeroTokens else .submit ord
      else if TAKER_MIN_TOKENS ≤ approxTokens then
        let ord := mkBuyOrder false (buySelectPrice traderPrice bestAskPrice) remaining
        if ord.tokens = 0 then .abort .zeroTokens else .submit ord
      else .abort .tooSmall

/-- Exchange interaction of one BUY iteration: either the client threw
(caught by the `try`/`catch` at lines 384-407) or the posted order got a
response. -/
inductive BuyResp where
  | threw (msg : String)
  | responded (res : OrderResult)
deriving DecidableEq

structure BuyEnvStep where
  asks : List BookLevel
  resp : BuyResp
deriving DecidableEq

structure BuyState where
  remaining : ℚ
  retry : ℕ
  totalBoughtTokens : ℚ
deriving DecidableEq

inductive BuyOutcome where
  | completed
  | exhausted
  | aborted (a : BuyAbort)
  | fundsAbort
  | sizeAbort
  | decimalAbort
deriving DecidableEq

structure BuyRun where
  outcome : BuyOutcome
  final : BuyState
  orders : List BuyOrder
  leftover : List BuyEnvStep
deriving DecidableEq

/-- The BUY `while (remaining > 0 && retry < RETRY_LIMIT)` loop
(lines 223-471).  A thrown client error increments the retry counter and
continues (no order reached the exchange); a response is classified in
source order: funds/allowance (terminal), size minimum (terminal), decimal
precision (terminal), otherwise retry (rate-limit/network backoffs do not
change the state). -/
def runBuy (skipSlippage : Bool) (tradePrice : ℚ) (limit : ℕ) :
    List BuyEnvStep → BuyState → Option BuyRun
  | env, st =>
    if st.remaining ≤ 0 then some ⟨.completed, st, [], env⟩
    else if limit ≤ st.retry then some ⟨.exhausted, st, [], env⟩
    else
      match env with
      | [] => none
      | e :: rest =>
        match buyPlan skipSlippage tradePrice st.remaining e.asks with
        | .abort a => some ⟨.aborted a, st, [], rest⟩
        | .submit ord =>
          match e.resp with
          | .threw _ =>
            runBuy skipSlippage tradePrice limit rest
              ⟨st.remaining, st.retry + 1, st.totalBoughtTokens⟩
          | .responded res =>
            if res.success then
              (runBuy skipSlippage tradePrice limit rest
                  ⟨st.remaining - ord.usd, 0, st.totalBoughtTokens + ord.tokens⟩).map
                (fun r => { r with orders := ord :: r.orders })
            else if isInsufficientBalanceOrAllowanceError res.error then
              some ⟨.fundsAbort, st, [ord], rest⟩
            else if isSizeMinError res.error then
              some ⟨.sizeAbort, st, [ord], rest⟩
            else if isDecimalError res.error then
              some ⟨.decimalAbort, st, [ord], rest⟩
            else
              (runBuy skipSlippage tradePrice limit rest
                  ⟨st.remaining, st.retry + 1, st.totalBoughtTokens⟩).map
                (fun r => { r with orders := ord :: r.orders })

/-- Final activity-store write of the BUY branch (lines 472-489). -/
def buyFinalUpdate (limit : ℕ) (o : BuyOutcome) (st : BuyState) :
    TradeRecordUpdate :=
  match o with
  | .fundsAbort => ⟨true, some limit, some st.totalBoughtTokens⟩
  | _ =>
    if limit ≤ st.retry then ⟨true, some st.retry, some st.totalBoughtTokens⟩
    else ⟨true, none, some st.totalBoughtTokens⟩

/-! ### SELL branch (order utility module, lines 497-708) -/

structure UserPosition where
  conditionId : String
  asset : String
  size : ℚ
  avgPrice : ℚ
deriving DecidableEq

/-- The SELL sizing block (lines 500-587): proportional sizing from tracked
purchases (falling back to the live position), tier multiplier, minimum
check, cap at the held position.  `none` means the branch returns without
entering the order loop (no position, or below the minimum). -/
def sellInitialSizing (myPos userPos : Option UserPosition) (tradeSize : ℚ)
    (totalBoughtTokens : ℚ) (multiplier : ℚ) : Option ℚ :=
  match myPos with
  | none => none
  | some mp =>
    let remaining :=
      match userPos with
      | none => roundTokens mp.size
      | some up =>
        let trader_sell_percent := tradeSize / (up.size + tradeSize)
        let baseSellSize :=
          if 0 < totalBoughtTokens then totalBoughtTokens * trader_sell_percent
          else mp.size * trader_sell_percent
        roundTokens (baseSellSize * multiplier)
    if remaining < MIN_ORDER_SIZE_TOKENS then none
    else if mp.size < remaining then some (roundTokens mp.size)
    else some remaining

structure SellState where
  remaining : ℚ
  retry : ℕ
  totalSoldTokens : ℚ
deriving DecidableEq

inductive SellOutcome where
  | completed
  | exhausted
  | emptyBook
  | belowMinRemaining
  | belowMinOrder
  | fundsAbort
deriving DecidableEq

structure SellRun where
  outcome : SellOutcome
  final : SellState
  orders : List SellOrder
  leftover : List MergeEnvStep
deriving DecidableEq

/-- The SELL order loop (lines 593-661), mirroring the MERGE walk with the
extra below-minimum breaks and the `totalSoldTokens` accumulator. -/
def runSell (limit : ℕ) : List MergeEnvStep → SellState → Option SellRun
  | env, st =>
    if st.remaining ≤ 0 then some ⟨.completed, st, [], env⟩
    else if limit ≤ st.retry then some ⟨.exhausted, st, [], env⟩
    else
      match env with
      | [] => none
      | e :: rest =>
        match e.bids with
        | [] => some ⟨.emptyBook, st, [], rest⟩
        | b :: bs =>
          let best := maxPriceBid (b :: bs) b
          if st.remaining < MIN_ORDER_SIZE_TOKENS then
            some ⟨.belowMinRemaining, st, [], rest⟩
          else
            let sellAmount := roundTokens (min st.remaining best.size)
            if sellAmount < MIN_ORDER_SIZE_TOKENS then
              some ⟨.belowMinOrder, st, [], rest⟩
            else
              let ord : SellOrder := ⟨sellAmount, roundPrice best.price⟩
              if e.resp.success then
                (runSell limit rest
                    ⟨st.remaining - sellAmount, 0, st.totalSoldTokens + sellAmount⟩).map
                  (fun r => { r with orders := ord :: r.orders })
              else if isInsufficientBalanceOrAllowanceError e.resp.error then
                some ⟨.fundsAbort, st, [ord], rest⟩
              else
                (runSell limit rest
                    ⟨st.remaining, st.retry + 1, st.totalSoldTokens⟩).map
                  (fun r => { r with orders := ord :: r.orders })

/-- Final activity-store write of the SELL branch (lines 697-708). -/
def sellFinalUpdate (limit : ℕ) (o : SellOutcome) (st : SellState) :
    TradeRecordUpdate :=
  match o with
  | .fundsAbort => ⟨true, some limit, none⟩
  | _ => if limit ≤ st.retry then ⟨true, some st.retry, none⟩ else ⟨true, none, none⟩

/-! ### Token-grid multiples (used by the MERGE termination argument) -/

/-- A non-negative quantity on the 4-decimal token grid (what `roundTokens`
produces on non-negative input). -/
def IsTokenMultiple (q : ℚ) : Prop := ∃ n : ℕ, q = n / 10 ^ 4

/-- Grid coordinate of a token-grid quantity. -/
def tokenUnits (q : ℚ) : ℕ := (q * 10 ^ 4).num.toNat

/-- Termination measure of the MERGE loop. -/
def mergeMeasure (limit : ℕ) (st : MergeState) : ℕ :=
  tokenUnits st.remaining * (limit + 1) + (limit - st.retry)

/-- A benign environment step for the MERGE loop: if the book is non-empty,
the best bid's size floored to the token grid is still positive (each
successful fill then makes progress). -/
def GoodMergeStep (e : MergeEnvStep) : Prop :=
  ∀ b rest, e.bids = b :: rest →
    1 / 10 ^ 4 ≤ roundTokens (maxPriceBid (b :: rest) b).size

/-! ## Theorems -/

/-! ### Rounding lemmas -/

theorem roundToDecimals_le (x : ℚ) (d : ℕ) : roundToDecimals x d ≤ x := by
  have hf : (0:ℚ) < 10 ^ d := by positivity
  simp only [roundToDecimals]
  rw [div_le_iff₀ hf]
  exact Int.floor_le _

theorem roundToDecimals_eq_self {x : ℚ} {d : ℕ} {n : ℤ}
    (h : x * 10 ^ d = (n : ℚ)) : roundToDecimals x d = x := by
  have hf : (10:ℚ) ^ d ≠ 0 := by positivity
  simp only [roundToDecimals]
  rw [h, Int.floor_intCast, ← h, mul_div_assoc, div_self hf, mul_one]

theorem roundToDecimals_mul_factor (x : ℚ) (d : ℕ) :
    roundToDecimals x d * 10 ^ d = (⌊x * 10 ^ d⌋ : ℚ) := by
  have hf : (10:ℚ) ^ d ≠ 0 := by positivity
  simp only [roundToDecimals]
  rw [div_mul_cancel₀ _ hf]

theorem roundToDecimals_idem (x : ℚ) (d : ℕ) :
    roundToDecimals (roundToDecimals x d) d = roundToDecimals x d :=
  roundToDecimals_eq_self (roundToDecimals_mul_factor x d)

theorem roundTokens_le (x : ℚ) : roundTokens x ≤ x := roundToDecimals_le x 4

/-- C9: each flooring helper (`roundAmount`, `roundTokens`, `roundPrice`,
flooring to 2, 4 and 2 decimal places) satisfies `round x ≤ x` and is
idempotent. -/
theorem rounding_floor_idem (x : ℚ) :
    roundAmount x ≤ x ∧ roundAmount (roundAmount x) = roundAmount x ∧
    roundTokens x ≤ x ∧ roundTokens (roundTokens x) = roundTokens x ∧
    roundPrice x ≤ x ∧ roundPrice (roundPrice x) = roundPrice x :=
  ⟨roundToDecimals_le x 2, roundToDecimals_idem x 2,
   roundToDecimals_le x 4, roundToDecimals_idem x 4,
   roundToDecimals_le x 2, roundToDecimals_idem x 2⟩

/-! ### C7: the aggregation buffer releases exactly the ready accumulators -/

/-- C7: `getReadyAggregations` releases exactly the accumulators whose
derived token total meets the 5-token threshold, and the remaining buffer
keeps exactly the others, unchanged and in order — so a released accumulator
leaves the buffer in the same cycle and every other accumulator persists. -/
theorem getReady_partition (buffer : AggregationBuffer) :
    (getReadyAggregations buffer).1 =
      (buffer.filter (fun kv =>
        decide (MIN_TOKENS_FOR_ORDER ≤ totalTokensOf kv.2))).map Prod.snd ∧
    (getReadyAggregations buffer).2 =
      buffer.filter (fun kv =>
        decide (totalTokensOf kv.2 < MIN_TOKENS_FOR_ORDER)) := by
  induction buffer with
  | nil => exact ⟨rfl, rfl⟩
  | cons kv rest ih =>
    by_cases h : MIN_TOKENS_FOR_ORDER ≤ totalTokensOf kv.2
    · simp [getReadyAggregations, h, ih.1, ih.2, List.filter_cons, not_lt.mpr h]
    · simp [getReadyAggregations, h, ih.1, ih.2, List.filter_cons, not_le.mp h]

/-! ### Risk-gate lemmas -/

theorem setSlugIfMissing_conditionId (t : MarketTracker) (slug : Option String) :
    (setSlugIfMissing t slug).conditionId = t.conditionId := by
  cases slug <;> cases h : t.slug <;> simp [setSlugIfMissing, h]

theorem setSlugIfMissing_assets (t : MarketTracker) (slug : Option String) :
    (setSlugIfMissing t slug).assets = t.assets := by
  cases slug <;> cases h : t.slug <;> simp [setSlugIfMissing, h]

theorem getMarketTracker_of_find_none {s : MarketState} {conditionId : String}
    (slug : Option String)
    (h : s.find? (fun t => t.conditionId == conditionId) = none) :
    getMarketTracker s conditionId slug =
      (⟨conditionId, slug, []⟩, s ++ [⟨conditionId, slug, []⟩]) := by
  unfold getMarketTracker
  rw [h]

theorem getMarketTracker_of_find_some {s : MarketState} {conditionId : String}
    {t : MarketTracker} (slug : Option String)
    (h : s.find? (fun t => t.conditionId == conditionId) = some t) :
    getMarketTracker s conditionId slug =
      (setSlugIfMissing t slug, replaceTracker s (setSlugIfMissing t slug)) := by
  unfold getMarketTracker
  rw [h]

theorem replaceTracker_map_pairs :
    ∀ (s : MarketState) (t' t : MarketTracker),
      s.find? (fun u => u.conditionId == t'.conditionId) = some t →
      t'.assets = t.assets →
      (replaceTracker s t').map (fun u => (u.conditionId, u.assets)) =
        s.map (fun u => (u.conditionId, u.assets)) := by
  intro s
  induction s with
  | nil => intro t' t h _; simp at h
  | cons u us ih =>
    intro t' t h ha
    by_cases hc : u.conditionId = t'.conditionId
    · have hp : (u.conditionId == t'.conditionId) = true := beq_iff_eq.mpr hc
      simp only [List.find?_cons, hp] at h
      obtain rfl : u = t := by simpa using h
      simp [replaceTracker, hc, ha]
    · have hp : (u.conditionId == t'.conditionId) = false := by
        simpa using hc
      simp only [List.find?_cons, hp] at h
      simp [replaceTracker, hc, ih t' t h ha]

/-! ### C10: the arb check is read-only on recorded sides -/

/-- C10 (amended): projected to `(conditionId, assets)` — i.e. everything
except the cosmetic `slug` field — the tracker map after
`checkArbBeforeExecution` is exactly the old map, with one empty tracker
appended when the condition id was previously unseen.  In particular every
recorded `AssetExecution` (quantity, totalCost, avgPrice) is unchanged: the
prospective post-trade state is computed but never stored; besides inserting
an empty tracker the check can at most backfill a missing slug. -/
theorem checkArb_state_frame (s : MarketState) (conditionId thisAsset : String)
    (newQuantity newAvgPrice : ℚ) (slug : Option String) :
    ((checkArbBeforeExecution s conditionId thisAsset newQuantity newAvgPrice slug).2).map
        (fun t => (t.conditionId, t.assets)) =
      s.map (fun t => (t.conditionId, t.assets)) ++
        (if (s.find? (fun t => t.conditionId == conditionId)).isSome then []
         else [(conditionId, ([] : List AssetExecution))]) := by
  cases hf : s.find? (fun t => t.conditionId == conditionId) with
  | none =>
    have hsnd : (checkArbBeforeExecution s conditionId thisAsset newQuantity newAvgPrice slug).2
        = s ++ [⟨conditionId, slug, []⟩] := by
      show (getMarketTracker s conditionId slug).2 = _
      rw [getMarketTracker_of_find_none slug hf]
    rw [hsnd]
    simp
  | some t =>
    have hsnd : (checkArbBeforeExecution s conditionId thisAsset newQuantity newAvgPrice slug).2
        = replaceTracker s (setSlugIfMissing t slug) := by
      show (getMarketTracker s conditionId slug).2 = _
      rw [getMarketTracker_of_find_some slug hf]
    rw [hsnd]
    simp only [Option.isSome_some, if_true, List.append_nil]
    apply replaceTracker_map_pairs s _ t
    · have hcid : t.conditionId = conditionId := by
        have := List.find?_some hf
        simpa using this
      rw [setSlugIfMissing_conditionId, hcid]
      exact hf
    · exact setSlugIfMissing_assets t slug

/-- C10 counterexample: for a market whose tracker already exists but has no
slug, calling the check with a slug changes the stored state (the slug is
backfilled), so inserting an empty tracker for an unseen condition id is not
the only possible state change. -/
theorem checkArb_state_claim_cex :
    (([⟨"mkt", none, [⟨"B", 10, 4, 2/5⟩]⟩] : MarketState).find?
        (fun t => t.conditionId == "mkt")).isSome = true ∧
    (checkArbBeforeExecution [⟨"mkt", none, [⟨"B", 10, 4, 2/5⟩]⟩] "mkt" "A" 1 (1/2)
        (some "btc-updown-15m")).2 ≠ [⟨"mkt", none, [⟨"B", 10, 4, 2/5⟩]⟩] := by
  refine ⟨by rfl, ?_⟩
  decide

/-! ### C2: exact characterisation of rejection -/

theorem checkArb_fst_eq (s : MarketState) (conditionId thisAsset : String)
    (newQuantity newAvgPrice : ℚ) (slug : Option String) :
    (checkArbBeforeExecution s conditionId thisAsset newQuantity newAvgPrice slug).1 =
      checkArbOnAssets (trackerAssets s conditionId slug) thisAsset
        newQuantity newAvgPrice := rfl

theorem checkArbOnAssets_of_none {assets : List AssetExecution} {thisAsset : String}
    (newQuantity newAvgPrice : ℚ)
    (h : findOtherAsset assets thisAsset = none) :
    checkArbOnAssets assets thisAsset newQuantity newAvgPrice = ⟨true, 0, 0⟩ := by
  unfold checkArbOnAssets
  rw [h]

theorem checkArbOnAssets_of_some {assets : List AssetExecution} {thisAsset : String}
    {other : AssetExecution} (newQuantity newAvgPrice : ℚ)
    (h : findOtherAsset assets thisAsset = some other) :
    checkArbOnAssets assets thisAsset newQuantity newAvgPrice =
      (if other.quantity = 0 then ⟨true, 0, 0⟩
       else if ARB_MAX_COST_BASIS ≤
              prospectiveCostBasis assets thisAsset newQuantity newAvgPrice other ∧
            currentCostBasis assets thisAsset other < ARB_MAX_COST_BASIS then
         ⟨false, prospectiveCostBasis assets thisAsset newQuantity newAvgPrice other,
           prospectiveImbalance assets thisAsset newQuantity other⟩
       else if currentImbalance assets thisAsset other <
              prospectiveImbalance assets thisAsset newQuantity other ∧
            ARB_MAX_IMBALANCE < prospectiveImbalance assets thisAsset newQuantity other then
         ⟨false, prospectiveCostBasis assets thisAsset newQuantity newAvgPrice other,
           prospectiveImbalance assets thisAsset newQuantity other⟩
       else ⟨true, prospectiveCostBasis assets thisAsset newQuantity newAvgPrice other,
         prospectiveImbalance assets thisAsset newQuantity other⟩) := by
  unfold checkArbOnAssets
  rw [h]

/-- C2: the check rejects exactly when a complementary side with non-zero
quantity is recorded and either (a) the prospective combined cost basis
reaches the 0.95 ceiling while the current one is still below it, or (b) the
prospective imbalance is strictly worse than the current one and above the
0.25 ceiling.  In particular, with no complementary side recorded (first leg
of the market) the trade is always allowed. -/
theorem checkArb_reject_iff (s : MarketState) (conditionId thisAsset : String)
    (newQuantity newAvgPrice : ℚ) (slug : Option String) :
    (checkArbBeforeExecution s conditionId thisAsset newQuantity newAvgPrice slug).1.ok
        = false ↔
      ∃ other,
        findOtherAsset (trackerAssets s conditionId slug) thisAsset = some other ∧
        other.quantity ≠ 0 ∧
        ((ARB_MAX_COST_BASIS ≤ prospectiveCostBasis (trackerAssets s conditionId slug)
            thisAsset newQuantity newAvgPrice other ∧
          currentCostBasis (trackerAssets s conditionId slug) thisAsset other <
            ARB_MAX_COST_BASIS) ∨
         (currentImbalance (trackerAssets s conditionId slug) thisAsset other <
            prospectiveImbalance (trackerAssets s conditionId slug) thisAsset
              newQuantity other ∧
          ARB_MAX_IMBALANCE < prospectiveImbalance (trackerAssets s conditionId slug)
            thisAsset newQuantity other)) := by
  rw [checkArb_fst_eq]
  cases hfo : findOtherAsset (trackerAssets s conditionId slug) thisAsset with
  | none =>
    rw [checkArbOnAssets_of_none newQuantity newAvgPrice hfo]
    simp [hfo]
  | some other =>
    rw [checkArbOnAssets_of_some newQuantity newAvgPrice hfo]
    by_cases h0 : other.quantity = 0
    · rw [if_pos h0]
      refine iff_of_false (by simp) ?_
      rintro ⟨other', ho', hq', -⟩
      cases ho'
      exact hq' h0
    · rw [if_neg h0]
      split_ifs with h1 h2
      · exact iff_of_true rfl ⟨other, rfl, h0, Or.inl h1⟩
      · exact iff_of_true rfl ⟨other, rfl, h0, Or.inr h2⟩
      · refine iff_of_false (by simp) ?_
        rintro ⟨other', ho', -, hcond⟩
        cases ho'
        rcases hcond with hc | hc
        · exact h1 hc
        · exact h2 hc

/-! ### C1: the gate is monotone -/

/-- C1: with a complementary side of positive quantity recorded and a
positive incoming quantity, a trade whose prospective imbalance does not
exceed the current one and whose prospective combined basis does not exceed
the current one (or whose current basis is already at/above the 0.95
ceiling) is always allowed. -/
theorem checkArb_monotone_allows (s : MarketState) (conditionId thisAsset : String)
    (newQuantity newAvgPrice : ℚ) (slug : Option String) (other : AssetExecution)
    (hother : findOtherAsset (trackerAssets s conditionId slug) thisAsset = some other)
    (hpos : 0 < other.quantity) (_hq : 0 < newQuantity)
    (himb : prospectiveImbalance (trackerAssets s conditionId slug) thisAsset
        newQuantity other ≤
      currentImbalance (trackerAssets s conditionId slug) thisAsset other)
    (hcb : prospectiveCostBasis (trackerAssets s conditionId slug) thisAsset
          newQuantity newAvgPrice other ≤
        currentCostBasis (trackerAssets s conditionId slug) thisAsset other ∨
      ARB_MAX_COST_BASIS ≤
        currentCostBasis (trackerAssets s conditionId slug) thisAsset other) :
    (checkArbBeforeExecution s conditionId thisAsset newQuantity newAvgPrice slug).1.ok
      = true := by
  rw [checkArb_fst_eq]
  rw [checkArbOnAssets_of_some newQuantity newAvgPrice hother]
  rw [if_neg (ne_of_gt hpos)]
  split_ifs with h1 h2
  · rcases h1 with ⟨hnew, hcur⟩
    rcases hcb with hle | hceil
    · exact absurd (lt_of_le_of_lt (hnew.trans hle) hcur) (lt_irrefl _)
    · exact absurd (lt_of_le_of_lt hceil hcur) (lt_irrefl _)
  · exact absurd (lt_of_le_of_lt himb h2.1) (lt_irrefl _)
  · rfl

/-- C1 witness: a concrete balancing second-leg trade (10 tokens at price 0
against a recorded opposite side of 10 tokens at average 0.40) satisfies
every hypothesis and is allowed. -/
theorem checkArb_monotone_allows_witness :
    (findOtherAsset (trackerAssets [⟨"mkt", none, [⟨"B", 10, 4, 2/5⟩]⟩] "mkt" none) "A"
        = some ⟨"B", 10, 4, 2/5⟩) ∧
    (0:ℚ) < 10 ∧
    (checkArbBeforeExecution [⟨"mkt", none, [⟨"B", 10, 4, 2/5⟩]⟩] "mkt" "A" 10 0
        none).1.ok = true := by
  have hA : trackerAssets [⟨"mkt", none, [⟨"B", 10, 4, 2/5⟩]⟩] "mkt" none
      = [⟨"B", 10, 4, 2/5⟩] := rfl
  have hq1 : currentThisQty [⟨"B", (10:ℚ), 4, 2/5⟩] "A" = 0 := rfl
  have hc1 : currentThisCost [⟨"B", (10:ℚ), 4, 2/5⟩] "A" = 0 := rfl
  refine ⟨rfl, by norm_num, ?_⟩
  refine checkArb_monotone_allows [⟨"mkt", none, [⟨"B", 10, 4, 2/5⟩]⟩] "mkt" "A" 10 0
    none ⟨"B", 10, 4, 2/5⟩ rfl (by norm_num) (by norm_num) ?_ (Or.inl ?_)
  · rw [hA]
    unfold prospectiveImbalance currentImbalance prospectiveThisQty
    rw [hq1]
    norm_num
  · rw [hA]
    unfold prospectiveCostBasis currentCostBasis prospectiveThisQty prospectiveThisCost
    rw [hq1, hc1]
    norm_num

/-! ### C4: SELL sizing -/

/-- C4: while the trader still holds a position, the sell proportion is
`p = trade.size / (user_position.size + trade.size)`; the base size is the
tracked bought quantity times `p` when tracked purchases exist and the live
held position times `p` only otherwise; the tier multiplier is applied and
the result floored to the token grid, rejected below the 0.10 minimum, and
capped at the held position.  When the trader closed entirely, the whole
held position (floored) is sold.  Whatever the inputs, an accepted sell
quantity never exceeds the held position size. -/
theorem sell_sizing_spec :
    (∀ (mp up : UserPosition) (tradeSize totalBoughtTokens multiplier : ℚ),
       0 < totalBoughtTokens →
       sellInitialSizing (some mp) (some up) tradeSize totalBoughtTokens multiplier =
         (let p := tradeSize / (up.size + tradeSize)
          let r := roundTokens (totalBoughtTokens * p * multiplier)
          if r < MIN_ORDER_SIZE_TOKENS then none
          else if mp.size < r then some (roundTokens mp.size) else some r)) ∧
    (∀ (mp up : UserPosition) (tradeSize totalBoughtTokens multiplier : ℚ),
       totalBoughtTokens ≤ 0 →
       sellInitialSizing (some mp) (some up) tradeSize totalBoughtTokens multiplier =
         (let p := tradeSize / (up.size + tradeSize)
          let r := roundTokens (mp.size * p * multiplier)
          if r < MIN_ORDER_SIZE_TOKENS then none
          else if mp.size < r then some (roundTokens mp.size) else some r)) ∧
    (∀ (mp : UserPosition) (tradeSize totalBoughtTokens multiplier : ℚ),
       sellInitialSizing (some mp) none tradeSize totalBoughtTokens multiplier =
         if roundTokens mp.size < MIN_ORDER_SIZE_TOKENS then none
         else some (roundTokens mp.size)) ∧
    (∀ (mp : UserPosition) (userPos : Option UserPosition)
       (tradeSize totalBoughtTokens multiplier r : ℚ),
       sellInitialSizing (some mp) userPos tradeSize totalBoughtTokens multiplier
         = some r → r ≤ mp.size) := by
  refine ⟨?_, ?_, ?_, ?_⟩
  · intro mp up ts tb m htb
    simp only [sellInitialSizing, if_pos htb]
  · intro mp up ts tb m htb
    simp only [sellInitialSizing, if_neg (not_lt.mpr htb)]
  · intro mp ts tb m
    simp only [sellInitialSizing]
    split_ifs <;> rfl
  · intro mp userPos ts tb m r h
    cases userPos with
    | none =>
      simp only [sellInitialSizing] at h
      split_ifs at h <;> cases h <;> exact roundTokens_le mp.size
    | some up =>
      simp only [sellInitialSizing] at h
      split_ifs at h <;> cases h <;>
        first
          | exact roundTokens_le mp.size
          | exact not_lt.mp (by assumption)

/-- C4 witness (Scenario C of the spec): the trader had 60 tokens left and
sells 40 (`p = 0.40`), tracked bought is 80 tokens, multiplier 1, held
position 50 tokens: base size 32 tokens, below the cap, so 32 is sold. -/
theorem sell_sizing_spec_witness :
    (0:ℚ) < 80 ∧
    sellInitialSizing (some ⟨"c", "a", 50, 1/2⟩) (some ⟨"c", "a", 60, 1/2⟩) 40 80 1
      = some 32 := by
  refine ⟨by norm_num, ?_⟩
  rw [sell_sizing_spec.1 ⟨"c", "a", 50, 1/2⟩ ⟨"c", "a", 60, 1/2⟩ 40 80 1 (by norm_num)]
  norm_num [roundTokens, roundToDecimals, MIN_ORDER_SIZE_TOKENS]

/-! ### C6: BUY precision rules -/

theorem round_cents (price : ℚ) (k : ℤ) (hk : price = k / 100) :
    round (price * 100) = k := by
  rw [hk, div_mul_cancel₀ _ (by norm_num : (100:ℚ) ≠ 0)]
  exact round_intCast k

theorem mkBuyOrder_FOK (price remaining : ℚ) (k : ℤ) (hk : price = k / 100) :
    mkBuyOrder true price remaining =
      ⟨.FOK, price, roundTokens (roundAmount remaining / price),
        roundAmount remaining⟩ := by
  have ha : roundAmount remaining = (⌊remaining * 100⌋ : ℚ) / 100 := by
    norm_num [roundAmount, roundToDecimals]
  have ht : roundTokens (roundAmount remaining / price) =
      (⌊roundAmount remaining / price * 10000⌋ : ℚ) / 10000 := by
    norm_num [roundTokens, roundToDecimals]
  simp only [mkBuyOrder, round_cents price k hk, if_true, BuyOrder.mk.injEq]
  refine ⟨trivial, hk.symm, ?_, ha.symm⟩
  rw [ht, ha, hk]

theorem mkBuyOrder_GTC (price remaining : ℚ) (k : ℤ) (hk : price = k / 100)
    (hk0 : k ≠ 0) :
    mkBuyOrder false price remaining =
      ⟨.GTC, price, roundToDecimals (remaining / price) 2,
        roundToDecimals (remaining / price) 2 * price⟩ := by
  have harg : remaining * 10000 / ((k : ℤ) : ℚ) = remaining / price * 100 := by
    rw [hk]
    have : ((k : ℤ) : ℚ) ≠ 0 := Int.cast_ne_zero.mpr hk0
    field_simp
    ring
  have ht : roundToDecimals (remaining / price) 2 =
      (⌊remaining / price * 100⌋ : ℚ) / 100 := by
    norm_num [roundToDecimals]
  simp only [mkBuyOrder, round_cents price k hk, Bool.false_eq_true, if_false,
    BuyOrder.mk.injEq]
  refine ⟨trivial, hk.symm, ?_, ?_⟩
  · rw [ht, harg]
  · rw [ht, harg, hk]
    push_cast
    ring

/-- C6: precision of the submitted order.  For a FOK order the USD amount is
the remaining amount floored to 2 decimals and the token quantity is that
USD amount divided by the price, floored to 4 decimals; for a GTC order the
token quantity is the remaining divided by the price, floored to 2 decimals,
and the USD cost equals token quantity times price exactly (an integer
multiple of 1/10000 by construction); the submitted price, for a price on
the cent grid as the style selection always produces, is that price itself —
a 2-decimal value not exceeding the pre-rounding price. -/
theorem buy_precision_spec (price remaining : ℚ) (k : ℤ)
    (hk : price = k / 100) (hkpos : 0 < k) :
    (mkBuyOrder true price remaining).usd = roundAmount remaining ∧
    (mkBuyOrder true price remaining).tokens =
      roundTokens (roundAmount remaining / price) ∧
    (mkBuyOrder false price remaining).tokens =
      roundToDecimals (remaining / price) 2 ∧
    (mkBuyOrder false price remaining).usd =
      (mkBuyOrder false price remaining).tokens * price ∧
    (mkBuyOrder true price remaining).price = price ∧
    (mkBuyOrder false price remaining).price = price ∧
    (∃ j : ℤ, (mkBuyOrder true price remaining).price = (j : ℚ) / 100) ∧
    (mkBuyOrder true price remaining).price ≤ price := by
  have hf := mkBuyOrder_FOK price remaining k hk
  have hg := mkBuyOrder_GTC price remaining k hk (ne_of_gt hkpos)
  rw [hf, hg]
  exact ⟨rfl, rfl, rfl, rfl, rfl, rfl, ⟨k, hk⟩, le_refl price⟩

/-- C6 witness: at price $0.50 and remaining $2.3456789, the FOK order
submits $2.34 for 4.6800 tokens and the GTC order submits 4.69 tokens for
$2.3450 — token quantity times price exactly. -/
theorem buy_precision_spec_witness :
    ((1:ℚ)/2 = (50 : ℤ) / 100 ∧ (0:ℤ) < 50) ∧
    (mkBuyOrder true (1/2) (23456789/10000000)).usd = 117/50 ∧
    (mkBuyOrder false (1/2) (23456789/10000000)).tokens = 469/100 ∧
    (mkBuyOrder false (1/2) (23456789/10000000)).usd = 469/100 * (1/2) := by
  have h := buy_precision_spec (1/2) (23456789/10000000) 50 (by norm_num) (by norm_num)
  refine ⟨⟨by norm_num, by norm_num⟩, ?_, ?_, ?_⟩
  · rw [h.1]
    norm_num [roundAmount, roundToDecimals]
  · rw [h.2.2.1]
    norm_num [roundToDecimals]
  · rw [h.2.2.2.1, h.2.2.1]
    norm_num [roundToDecimals]

/-! ### C5: BUY order-style selection -/

theorem one_le_roundToDecimals {x : ℚ} (d : ℕ) (hx : 1 ≤ x) :
    1 ≤ roundToDecimals x d := by
  have hf : (0:ℚ) < 10 ^ d := by positivity
  simp only [roundToDecimals]
  rw [le_div_iff₀ hf, one_mul]
  have h1 : (10:ℚ) ^ d ≤ x * 10 ^ d := le_mul_of_one_le_left (le_of_lt hf) hx
  have h2 : (((10:ℤ) ^ d : ℤ) : ℚ) ≤ x * 10 ^ d := by push_cast; exact h1
  have h3 : ((10:ℤ) ^ d : ℤ) ≤ ⌊x * 10 ^ d⌋ := Int.le_floor.mpr h2
  calc (10:ℚ) ^ d = (((10:ℤ) ^ d : ℤ) : ℚ) := by push_cast; ring
    _ ≤ (⌊x * 10 ^ d⌋ : ℚ) := by exact_mod_cast h3

theorem roundPrice_eq_floor (x : ℚ) : roundPrice x = (⌊x * 100⌋ : ℚ) / 100 := by
  norm_num [roundPrice, roundToDecimals]

theorem roundPrice_of_grid {x : ℚ} (k : ℤ) (h : x = (k : ℚ) / 100) :
    roundPrice x = x :=
  @roundToDecimals_eq_self x 2 k (by
    rw [h, show ((10:ℚ) ^ 2) = 100 by norm_num,
      div_mul_cancel₀ _ (by norm_num : (100:ℚ) ≠ 0)])

/-- Structure of the GTC maker price for tick-grid inputs: a cent-grid value
that is at least one cent, strictly below the best ask, and never above the
trader's (rounded) price. -/
theorem buySelectPrice_spec (rtp bap : ℚ) (i k : ℤ)
    (hrtp : rtp = (i : ℚ) / 100) (hi : 1 ≤ i)
    (hbap : bap = (k : ℚ) / 100) (hk : 2 ≤ k) (hk100 : k ≤ 100) :
    ∃ j : ℤ, 1 ≤ j ∧ buySelectPrice rtp bap = (j : ℚ) / 100 ∧
      buySelectPrice rtp bap < bap ∧ buySelectPrice rtp bap ≤ rtp := by
  have h100 : (0:ℚ) < 100 := by norm_num
  have hbufge : 1/100 ≤ max (1/100 : ℚ) (bap * (2/100)) := le_max_left _ _
  have hmaker_le : roundPrice (bap - max (1/100 : ℚ) (bap * (2/100))) ≤ bap - 1/100 :=
    (roundToDecimals_le _ 2).trans (by linarith)
  have hmaker_lt : roundPrice (bap - max (1/100 : ℚ) (bap * (2/100))) < bap := by
    have : (0:ℚ) < 1/100 := by norm_num
    linarith
  -- the forced-below fallback can never fire: the maker price is already
  -- strictly below the best ask
  have hmin_lt : min rtp (roundPrice (bap - max (1/100 : ℚ) (bap * (2/100)))) < bap :=
    lt_of_le_of_lt (min_le_right _ _) hmaker_lt
  have hsel : buySelectPrice rtp bap =
      min rtp (roundPrice (bap - max (1/100 : ℚ) (bap * (2/100)))) := by
    simp only [buySelectPrice]
    rw [if_neg (not_le.mpr hmin_lt)]
  -- the maker price lies on the cent grid and is at least one cent
  have hm : roundPrice (bap - max (1/100 : ℚ) (bap * (2/100))) =
      ((⌊(bap - max (1/100 : ℚ) (bap * (2/100))) * 100⌋ : ℤ) : ℚ) / 100 :=
    roundPrice_eq_floor _
  have hm1 : 1 ≤ ⌊(bap - max (1/100 : ℚ) (bap * (2/100))) * 100⌋ := by
    rcases max_cases (1/100 : ℚ) (bap * (2/100)) with ⟨heq, -⟩ | ⟨heq, hgt⟩
    · rw [heq]
      have harg : (bap - 1/100) * 100 = ((k - 1 : ℤ) : ℚ) := by
        rw [hbap]; push_cast; ring
      rw [harg, Int.floor_intCast]
      omega
    · rw [heq]
      have hkq : (50:ℚ) < (k:ℚ) := by
        rw [hbap] at hgt
        nlinarith [hgt]
      have harg : (bap - bap * (2/100)) * 100 = (k:ℚ) * 98 / 100 := by
        rw [hbap]; ring
      rw [harg]
      exact Int.le_floor.mpr (by push_cast; nlinarith)
  refine ⟨min i ⌊(bap - max (1/100 : ℚ) (bap * (2/100))) * 100⌋, le_min hi hm1, ?_, ?_, ?_⟩
  · rw [hsel, hrtp, hm]
    rw [div_eq_mul_inv, div_eq_mul_inv, div_eq_mul_inv]
    rw [← min_mul_of_nonneg _ _ (by norm_num : (0:ℚ) ≤ (100:ℚ)⁻¹)]
    congr 1
    exact_mod_cast (Int.cast_min).symm
  · rw [hsel]; exact hmin_lt
  · rw [hsel]; exact min_le_left _ _

/-- C5: per-iteration order-style selection of the BUY loop, for a best ask
on the cent grid within (0, 1] and a positive rounded trader price, with the
slippage guard passing (or disabled) and the remaining amount at least the
absolute $0.10 minimum.  A clip worth at least $1.00 goes out as a FOK order
priced at the best ask; otherwise a clip of at least 5 implied tokens goes
out as a GTC order priced strictly below the best ask and never above the
trader's observed price; otherwise the loop aborts with `tooSmall`, marking
the trade processed without retrying. -/
theorem buy_style_selection_spec (skip : Bool) (tradePrice remaining : ℚ)
    (a : BookLevel) (bs : List BookLevel) (k : ℤ)
    (hask : (minPriceAsk (a :: bs) a).price = (k : ℚ) / 100)
    (hk1 : 1 ≤ k) (hk100 : k ≤ 100)
    (htp : 0 < roundPrice tradePrice)
    (hslip : skip = true ∨ (minPriceAsk (a :: bs) a).price ≤ tradePrice * (11/10))
    (hmin : MIN_ORDER_SIZE_USD ≤ remaining) :
    (MAKER_MIN_USD ≤ remaining →
       buyPlan skip tradePrice remaining (a :: bs) =
         .submit (mkBuyOrder true (minPriceAsk (a :: bs) a).price remaining) ∧
       (mkBuyOrder true (minPriceAsk (a :: bs) a).price remaining).style = .FOK ∧
       (mkBuyOrder true (minPriceAsk (a :: bs) a).price remaining).price =
         (minPriceAsk (a :: bs) a).price) ∧
    (remaining < MAKER_MIN_USD →
     TAKER_MIN_TOKENS ≤ remaining / roundPrice tradePrice →
     2 ≤ k →
       buyPlan skip tradePrice remaining (a :: bs) =
         .submit (mkBuyOrder false
           (buySelectPrice (roundPrice tradePrice) (minPriceAsk (a :: bs) a).price)
           remaining) ∧
       (mkBuyOrder false
         (buySelectPrice (roundPrice tradePrice) (minPriceAsk (a :: bs) a).price)
         remaining).style = .GTC ∧
       (mkBuyOrder false
         (buySelectPrice (roundPrice tradePrice) (minPriceAsk (a :: bs) a).price)
         remaining).price < (minPriceAsk (a :: bs) a).price ∧
       (mkBuyOrder false
         (buySelectPrice (roundPrice tradePrice) (minPriceAsk (a :: bs) a).price)
         remaining).price ≤ tradePrice) ∧
    (remaining < MAKER_MIN_USD →
     remaining / roundPrice tradePrice < TAKER_MIN_TOKENS →
       buyPlan skip tradePrice remaining (a :: bs) = .abort .tooSmall ∧
       (∀ (resp : BuyResp) (rest : List BuyEnvStep) (st : BuyState) (limit : ℕ),
          st.remaining = remaining → 0 < st.remaining → st.retry < limit →
          runBuy skip tradePrice limit (⟨a :: bs, resp⟩ :: rest) st =
            some ⟨.aborted .tooSmall, st, [], rest⟩ ∧
          buyFinalUpdate limit (.aborted .tooSmall) st =
            ⟨true, none, some st.totalBoughtTokens⟩)) := by
  have hb : roundPrice (minPriceAsk (a :: bs) a).price = (minPriceAsk (a :: bs) a).price :=
    roundPrice_of_grid k hask
  have hslipneg : ¬(¬skip = true ∧ tradePrice * (11/10) < (minPriceAsk (a :: bs) a).price) := by
    rintro ⟨h1, h2⟩
    rcases hslip with he | hle
    · exact h1 he
    · exact absurd h2 (not_lt.mpr hle)
  have hminneg : ¬(remaining < MIN_ORDER_SIZE_USD) := not_lt.mpr hmin
  have hplan : buyPlan skip tradePrice remaining (a :: bs) =
      (if MAKER_MIN_USD ≤ remaining then
        if (mkBuyOrder true (roundPrice (minPriceAsk (a :: bs) a).price) remaining).tokens = 0
        then .abort .zeroTokens
        else .submit (mkBuyOrder true (roundPrice (minPriceAsk (a :: bs) a).price) remaining)
      else if TAKER_MIN_TOKENS ≤ remaining / roundPrice tradePrice then
        if (mkBuyOrder false
             (buySelectPrice (roundPrice tradePrice)
               (roundPrice (minPriceAsk (a :: bs) a).price)) remaining).tokens = 0
        then .abort .zeroTokens
        else .submit (mkBuyOrder false
          (buySelectPrice (roundPrice tradePrice)
            (roundPrice (minPriceAsk (a :: bs) a).price)) remaining)
      else .abort .tooSmall) := by
    simp only [buyPlan]
    rw [if_neg hslipneg, if_neg hminneg]
  have hkq0 : (0:ℚ) < (k : ℚ) := by
    have : (0:ℤ) < k := by omega
    exact_mod_cast this
  have hp0 : (0:ℚ) < (minPriceAsk (a :: bs) a).price := by
    rw [hask]
    exact div_pos hkq0 (by norm_num)
  have hple : (minPriceAsk (a :: bs) a).price ≤ 1 := by
    rw [hask, div_le_one (by norm_num : (0:ℚ) < 100)]
    exact_mod_cast hk100
  refine ⟨?_, ?_, ?_⟩
  · -- FOK branch
    intro h1
    have hford := mkBuyOrder_FOK (minPriceAsk (a :: bs) a).price remaining k hask
    have h1' : (1:ℚ) ≤ remaining := by
      have : MAKER_MIN_USD = (1:ℚ) := rfl
      linarith [h1, this.symm.le]
    have htok1 : 1 ≤ (mkBuyOrder true (minPriceAsk (a :: bs) a).price remaining).tokens := by
      rw [hford]
      exact one_le_roundToDecimals 4
        ((one_le_div hp0).mpr (hple.trans (one_le_roundToDecimals 2 h1')))
    have htokne : (mkBuyOrder true (minPriceAsk (a :: bs) a).price remaining).tokens ≠ 0 := by
      intro h0
      rw [h0] at htok1
      norm_num at htok1
    rw [hplan, if_pos h1, hb, if_neg htokne]
    exact ⟨rfl, by rw [hford], by rw [hford]⟩
  · -- GTC branch
    intro h2 h5 hk2
    have htp' : (0:ℚ) < ((⌊tradePrice * 100⌋ : ℤ) : ℚ) / 100 := by
      rw [← roundPrice_eq_floor]
      exact htp
    have hi1 : 1 ≤ ⌊tradePrice * 100⌋ := by
      by_contra hc
      push_neg at hc
      have hle0 : ⌊tradePrice * 100⌋ ≤ 0 := by omega
      have hq : ((⌊tradePrice * 100⌋ : ℤ) : ℚ) ≤ 0 := by exact_mod_cast hle0
      linarith [htp']
    obtain ⟨j, hj1, hjeq, hjlt, hjle⟩ :=
      buySelectPrice_spec (roundPrice tradePrice) (minPriceAsk (a :: bs) a).price
        ⌊tradePrice * 100⌋ k (roundPrice_eq_floor tradePrice) hi1 hask hk2 hk100
    have hgord := mkBuyOrder_GTC
      (buySelectPrice (roundPrice tradePrice) (minPriceAsk (a :: bs) a).price)
      remaining j hjeq (by omega)
    have hP0 : (0:ℚ) <
        buySelectPrice (roundPrice tradePrice) (minPriceAsk (a :: bs) a).price := by
      rw [hjeq]
      have : (0:ℚ) < (j : ℚ) := by exact_mod_cast (by omega : (0:ℤ) < j)
      exact div_pos this (by norm_num)
    have hrem0 : (0:ℚ) < remaining := by
      have : MIN_ORDER_SIZE_USD = (1:ℚ)/10 := rfl
      linarith [hmin, this.symm.le]
    have hdivge : remaining / roundPrice tradePrice ≤
        remaining / buySelectPrice (roundPrice tradePrice) (minPriceAsk (a :: bs) a).price :=
      div_le_div_of_nonneg_left hrem0.le hP0 hjle
    have h1div : 1 ≤
        remaining / buySelectPrice (roundPrice tradePrice) (minPriceAsk (a :: bs) a).price := by
      have h5' : (5:ℚ) ≤ remaining / roundPrice tradePrice := h5
      linarith
    have htok1 : 1 ≤ (mkBuyOrder false
        (buySelectPrice (roundPrice tradePrice) (minPriceAsk (a :: bs) a).price)
        remaining).tokens := by
      rw [hgord]
      exact one_le_roundToDecimals 2 h1div
    have htokne : (mkBuyOrder false
        (buySelectPrice (roundPrice tradePrice) (minPriceAsk (a :: bs) a).price)
        remaining).tokens ≠ 0 := by
      intro h0
      rw [h0] at htok1
      norm_num at htok1
    rw [hplan, if_neg (not_le.mpr h2), if_pos h5, hb, if_neg htokne]
    refine ⟨rfl, by rw [hgord], ?_, ?_⟩
    · rw [hgord]
      exact hjlt
    · rw [hgord]
      exact hjle.trans (roundToDecimals_le tradePrice 2)
  · -- tooSmall branch
    intro h2 h6
    have habort : buyPlan skip tradePrice remaining (a :: bs) = .abort .tooSmall := by
      rw [hplan, if_neg (not_le.mpr h2), if_neg (not_le.mpr h6)]
    refine ⟨habort, ?_⟩
    intro resp rest st limit hst hpos hretry
    have habort' : buyPlan skip tradePrice st.remaining
        ((⟨a :: bs, resp⟩ : BuyEnvStep).asks) = .abort .tooSmall := by
      rw [show (⟨a :: bs, resp⟩ : BuyEnvStep).asks = a :: bs from rfl, hst]
      exact habort
    constructor
    · rw [runBuy]
      rw [if_neg (not_le.mpr hpos), if_neg (not_le.mpr hretry)]
      simp only [habort']
    · simp only [buyFinalUpdate]
      rw [if_neg (not_le.mpr hretry)]

/-- C5 witness: with a $0.50 best ask, a $2 clip goes FOK; with a $0.10 best
ask and trader price $0.10, a $0.50 clip (5 implied tokens) goes GTC; with a
$0.50 best ask and trader price $0.50, a $0.50 clip (1 implied token) is
aborted as too small. -/
theorem buy_style_selection_spec_witness :
    (MAKER_MIN_USD ≤ (2:ℚ) ∧
      buyPlan false (1/2) 2 [⟨1/2, 100⟩] =
        .submit (mkBuyOrder true (minPriceAsk [⟨(1:ℚ)/2, 100⟩] ⟨1/2, 100⟩).price 2)) ∧
    (TAKER_MIN_TOKENS ≤ (1/2:ℚ) / roundPrice (1/10) ∧
      buyPlan false (1/10) (1/2) [⟨1/10, 100⟩] =
        .submit (mkBuyOrder false
          (buySelectPrice (roundPrice (1/10))
            (minPriceAsk [⟨(1:ℚ)/10, 100⟩] ⟨1/10, 100⟩).price) (1/2))) ∧
    ((1/2:ℚ) / roundPrice (1/2) < TAKER_MIN_TOKENS ∧
      buyPlan false (1/2) (1/2) [⟨1/2, 100⟩] = .abort .tooSmall) := by
  have hask1 : (minPriceAsk [⟨(1:ℚ)/2, 100⟩] ⟨1/2, 100⟩).price = ((50:ℤ) : ℚ) / 100 := by
    simp [minPriceAsk]
    norm_num
  have hask2 : (minPriceAsk [⟨(1:ℚ)/10, 100⟩] ⟨1/10, 100⟩).price = ((10:ℤ) : ℚ) / 100 := by
    simp [minPriceAsk]
    norm_num
  have hrp1 : roundPrice ((1:ℚ)/2) = 1/2 := roundPrice_of_grid 50 (by norm_num)
  have hrp2 : roundPrice ((1:ℚ)/10) = 1/10 := roundPrice_of_grid 10 (by norm_num)
  have htp1 : 0 < roundPrice ((1:ℚ)/2) := by rw [hrp1]; norm_num
  have htp2 : 0 < roundPrice ((1:ℚ)/10) := by rw [hrp2]; norm_num
  refine ⟨⟨by norm_num [MAKER_MIN_USD], ?_⟩, ⟨?_, ?_⟩, ⟨?_, ?_⟩⟩
  · exact (buy_style_selection_spec false (1/2) 2 ⟨1/2, 100⟩ [] 50 hask1
      (by norm_num) (by norm_num) htp1
      (Or.inr (by rw [hask1]; norm_num)) (by norm_num [MIN_ORDER_SIZE_USD])).1
      (by norm_num [MAKER_MIN_USD]) |>.1
  · rw [hrp2]
    norm_num [TAKER_MIN_TOKENS]
  · exact (buy_style_selection_spec false (1/10) (1/2) ⟨1/10, 100⟩ [] 10 hask2
      (by norm_num) (by norm_num) htp2
      (Or.inr (by rw [hask2]; norm_num)) (by norm_num [MIN_ORDER_SIZE_USD])).2.1
      (by norm_num [MAKER_MIN_USD]) (by rw [hrp2]; norm_num [TAKER_MIN_TOKENS])
      (by norm_num) |>.1
  · rw [hrp1]
    norm_num [TAKER_MIN_TOKENS]
  · exact (buy_style_selection_spec false (1/2) (1/2) ⟨1/2, 100⟩ [] 50 hask1
      (by norm_num) (by norm_num) htp1
      (Or.inr (by rw [hask1]; norm_num)) (by norm_num [MIN_ORDER_SIZE_USD])).2.2
      (by norm_num [MAKER_MIN_USD]) (by rw [hrp1]; norm_num [TAKER_MIN_TOKENS]) |>.1

/-! ### C3: the MERGE loop -/

theorem mergeOrder_cons (st : MergeState) (b : BookLevel) (rest : List BookLevel) :
    mergeOrder st (b :: rest) =
      some ⟨roundTokens (min st.remaining (maxPriceBid (b :: rest) b).size),
        roundPrice (maxPriceBid (b :: rest) b).price⟩ := by
  simp only [mergeOrder]
  by_cases h : st.remaining ≤ (maxPriceBid (b :: rest) b).size <;>
    simp [h, min_def]

theorem roundTokens_of_multiple {q : ℚ} (h : IsTokenMultiple q) :
    roundTokens q = q := by
  obtain ⟨n, rfl⟩ := h
  exact @roundToDecimals_eq_self _ 4 (n : ℤ)
    (by push_cast; rw [div_mul_cancel₀ _ (by positivity : ((10:ℚ) ^ 4) ≠ 0)])

theorem roundTokens_multiple_of_nonneg {x : ℚ} (hx : 0 ≤ x) :
    IsTokenMultiple (roundTokens x) := by
  refine ⟨⌊x * 10 ^ 4⌋.toNat, ?_⟩
  have hfl : (0:ℤ) ≤ ⌊x * 10 ^ 4⌋ := Int.floor_nonneg.mpr (by positivity)
  have : ((⌊x * 10 ^ 4⌋.toNat : ℕ) : ℚ) = ((⌊x * 10 ^ 4⌋ : ℤ) : ℚ) := by
    exact_mod_cast congrArg (fun z : ℤ => (z : ℚ)) (Int.toNat_of_nonneg hfl)
  rw [this]
  simp only [roundTokens, roundToDecimals]

theorem IsTokenMultiple.sub {a b : ℚ} (ha : IsTokenMultiple a)
    (hb : IsTokenMultiple b) (hle : b ≤ a) : IsTokenMultiple (a - b) := by
  obtain ⟨n, rfl⟩ := ha
  obtain ⟨m, rfl⟩ := hb
  have hmn : m ≤ n := by
    have h4 : (0:ℚ) < 10 ^ 4 := by positivity
    rw [div_le_div_iff₀ h4 h4] at hle
    have := le_of_mul_le_mul_right hle h4
    exact_mod_cast this
  refine ⟨n - m, ?_⟩
  rw [div_sub_div_same]
  congr 1
  push_cast [hmn]
  ring

theorem tokenUnits_coe (n : ℕ) : tokenUnits ((n : ℚ) / 10 ^ 4) = n := by
  unfold tokenUnits
  rw [div_mul_cancel₀ _ (by positivity : ((10:ℚ) ^ 4) ≠ 0)]
  simp

/-- Outcome characterisation: every result the MERGE loop returns is one of
the four terminal shapes. -/
theorem runMerge_outcomes (limit : ℕ) :
    ∀ (env : List MergeEnvStep) (st : MergeState) (r : MergeRun),
      runMerge limit env st = some r →
      (r.outcome = .completed ∧ r.final.remaining ≤ 0) ∨
      (r.outcome = .exhausted ∧ limit ≤ r.final.retry) ∨
      r.outcome = .emptyBook ∨ r.outcome = .fundsAbort := by
  intro env
  induction env with
  | nil =>
    intro st r h
    rw [runMerge] at h
    split_ifs at h with h1 h2
    · cases h
      exact Or.inl ⟨rfl, h1⟩
    · cases h
      exact Or.inr (Or.inl ⟨rfl, h2⟩)
  | cons e rest ih =>
    intro st r h
    rw [runMerge] at h
    split_ifs at h with h1 h2 h3 h4
    · cases h
      exact Or.inl ⟨rfl, h1⟩
    · cases h
      exact Or.inr (Or.inl ⟨rfl, h2⟩)
    · cases hmo : mergeOrder st e.bids with
      | none =>
        simp only [hmo] at h
        cases h
        exact Or.inr (Or.inr (Or.inl rfl))
      | some ord =>
        simp only [hmo] at h
        obtain ⟨r0, hr0, hr⟩ := Option.map_eq_some'.mp h
        have hout := ih _ r0 hr0
        rw [← hr]
        simpa using hout
    · cases hmo : mergeOrder st e.bids with
      | none =>
        simp only [hmo] at h
        cases h
        exact Or.inr (Or.inr (Or.inl rfl))
      | some ord =>
        simp only [hmo] at h
        cases h
        exact Or.inr (Or.inr (Or.inr rfl))
    · cases hmo : mergeOrder st e.bids with
      | none =>
        simp only [hmo] at h
        cases h
        exact Or.inr (Or.inr (Or.inl rfl))
      | some ord =>
        simp only [hmo] at h
        obtain ⟨r0, hr0, hr⟩ := Option.map_eq_some'.mp h
        have hout := ih _ r0 hr0
        rw [← hr]
        simpa using hout

theorem isSome_map {α β : Type} (f : α → β) (o : Option α) :
    (o.map f).isSome = o.isSome := by cases o <;> rfl

/-- Termination of the MERGE loop: with a token-grid starting quantity and
an environment whose non-empty books expose a best bid of at least one grid
step, the loop reaches a terminal state within `mergeMeasure` iterations. -/
theorem runMerge_isSome (limit : ℕ) :
    ∀ (env : List MergeEnvStep) (st : MergeState),
      (∀ e ∈ env, GoodMergeStep e) → IsTokenMultiple st.remaining →
      mergeMeasure limit st < env.length →
      (runMerge limit env st).isSome = true := by
  intro env
  induction env with
  | nil =>
    intro st _ _ hlen
    simp at hlen
  | cons e rest ih =>
    intro st hgood hmul hlen
    have hgood' : ∀ x ∈ rest, GoodMergeStep x :=
      fun x hx => hgood x (List.mem_cons_of_mem e hx)
    have hlen' : mergeMeasure limit st ≤ rest.length := by
      have : (e :: rest).length = rest.length + 1 := rfl
      omega
    rw [runMerge]
    by_cases hr0 : st.remaining ≤ 0
    · rw [if_pos hr0]
      rfl
    rw [if_neg hr0]
    by_cases hretry : limit ≤ st.retry
    · rw [if_pos hretry]
      rfl
    rw [if_neg hretry]
    cases hbids : e.bids with
    | nil => rfl
    | cons b rest' =>
      have hmo := mergeOrder_cons st b rest'
      simp only [hmo]
      have hrpos : 0 < st.remaining := not_le.mp hr0
      obtain ⟨n, hn⟩ := hmul
      have h4 : (0:ℚ) < 10 ^ 4 := by positivity
      have hn1 : 1 ≤ n := by
        by_contra hc
        push_neg at hc
        have hzero : n = 0 := by omega
        rw [hzero] at hn
        norm_num at hn
        rw [hn] at hrpos
        norm_num at hrpos
      have hu : tokenUnits st.remaining = n := by rw [hn]; exact tokenUnits_coe n
      have hgs : (1:ℚ) / 10 ^ 4 ≤
          roundTokens (maxPriceBid (b :: rest') b).size :=
        hgood e (List.mem_cons_self e rest) b rest' hbids
      have hmeas_lb : limit + 1 ≤ mergeMeasure limit st := by
        unfold mergeMeasure
        rw [hu]
        calc limit + 1 ≤ n * (limit + 1) := Nat.le_mul_of_pos_left _ (by omega)
          _ ≤ n * (limit + 1) + (limit - st.retry) := Nat.le_add_right _ _
      -- the successful-fill successor state
      have hsucc_step : IsTokenMultiple
            (st.remaining - roundTokens (min st.remaining (maxPriceBid (b :: rest') b).size)) ∧
          mergeMeasure limit
            ⟨st.remaining - roundTokens (min st.remaining (maxPriceBid (b :: rest') b).size), 0⟩
            < rest.length := by
        by_cases hms : st.remaining ≤ (maxPriceBid (b :: rest') b).size
        · rw [min_eq_left hms, roundTokens_of_multiple ⟨n, hn⟩, sub_self]
          refine ⟨⟨0, by norm_num⟩, ?_⟩
          have ht0 : tokenUnits 0 = 0 := by simp [tokenUnits]
          unfold mergeMeasure
          rw [ht0]
          simp only [zero_mul, zero_add, Nat.sub_zero]
          omega
        · have hsz : (maxPriceBid (b :: rest') b).size < st.remaining := not_le.mp hms
          rw [min_eq_right hsz.le]
          have hsz0 : (0:ℚ) ≤ (maxPriceBid (b :: rest') b).size := by
            have := roundTokens_le (maxPriceBid (b :: rest') b).size
            have h14 : (0:ℚ) < 1 / 10 ^ 4 := by positivity
            linarith
          obtain ⟨mm, hmm⟩ := roundTokens_multiple_of_nonneg hsz0
          have hmm1 : 1 ≤ mm := by
            have hq : (1:ℚ) / 10 ^ 4 ≤ (mm : ℚ) / 10 ^ 4 := hmm ▸ hgs
            rw [div_le_div_iff₀ h4 h4] at hq
            have := le_of_mul_le_mul_right hq h4
            exact_mod_cast this
          have hmltn : mm < n := by
            have hq : (mm : ℚ) / 10 ^ 4 < (n : ℚ) / 10 ^ 4 := by
              rw [← hmm, ← hn]
              exact lt_of_le_of_lt (roundTokens_le _) hsz
            rw [div_lt_div_iff₀ h4 h4] at hq
            have := lt_of_mul_lt_mul_right hq h4.le
            exact_mod_cast this
          have hx : st.remaining - roundTokens (maxPriceBid (b :: rest') b).size
              = ((n - mm : ℕ) : ℚ) / 10 ^ 4 := by
            rw [hn, hmm, div_sub_div_same]
            congr 1
            rw [Nat.cast_sub hmltn.le]
          refine ⟨⟨n - mm, hx⟩, ?_⟩
          have hux : tokenUnits (st.remaining -
              roundTokens (maxPriceBid (b :: rest') b).size) = n - mm := by
            rw [hx, tokenUnits_coe]
          have h1 : (n - mm) * (limit + 1) ≤ (n - 1) * (limit + 1) :=
            Nat.mul_le_mul_right _ (by omega)
          have h2 : (n - 1) * (limit + 1) + (limit + 1) = n * (limit + 1) := by
            calc (n - 1) * (limit + 1) + (limit + 1) = ((n - 1) + 1) * (limit + 1) := by ring
              _ = n * (limit + 1) := by rw [Nat.sub_add_cancel hn1]
          have h3 : n * (limit + 1) ≤ mergeMeasure limit st := by
            unfold mergeMeasure
            rw [hu]
            exact Nat.le_add_right _ _
          unfold mergeMeasure
          rw [hux]
          simp only [Nat.sub_zero]
          linarith
      by_cases hsucc : e.resp.success = true
      · rw [if_pos hsucc, isSome_map]
        exact ih _ hgood' hsucc_step.1 hsucc_step.2
      · rw [if_neg hsucc]
        by_cases hfunds : isInsufficientBalanceOrAllowanceError e.resp.error = true
        · rw [if_pos hfunds]
          rfl
        · rw [if_neg hfunds, isSome_map]
          have hkey : mergeMeasure limit ⟨st.remaining, st.retry + 1⟩ + 1 =
              mergeMeasure limit st := by
            unfold mergeMeasure
            have h5 : limit - (st.retry + 1) + 1 = limit - st.retry := by omega
            rw [add_assoc, h5]
          exact ih _ hgood' ⟨n, hn⟩ (by omega)

/-- C3 (amended): (i) each MERGE iteration with a non-empty book submits an
order selling `roundTokens (min remaining bestBidSize)` — the 4-decimal
floor of `min(remaining, best-bid size)` — at the (rounded) best bid price;
(ii) a successful fill resets the retry counter to 0 and subtracts the
submitted amount from `remaining`; (iii) every outcome the loop returns is
one of: success (`remaining ≤ 0`), retry exhaustion (`retry ≥ limit`),
empty bid book, or funds abort; (iv) the loop terminates provided the
starting quantity lies on the token grid (as `roundTokens` guarantees) and
every non-empty fetched book's best bid size floors to a positive grid
amount — without that proviso it can run forever (see the counterexample). -/
theorem merge_loop_spec (limit : ℕ) :
    (∀ (st : MergeState) (b : BookLevel) (rest : List BookLevel),
       mergeOrder st (b :: rest) =
         some ⟨roundTokens (min st.remaining (maxPriceBid (b :: rest) b).size),
           roundPrice (maxPriceBid (b :: rest) b).price⟩) ∧
    (∀ (e : MergeEnvStep) (rest : List MergeEnvStep) (st : MergeState) (ord : SellOrder),
       ¬ st.remaining ≤ 0 → st.retry < limit →
       mergeOrder st e.bids = some ord → e.resp.success = true →
       runMerge limit (e :: rest) st =
         (runMerge limit rest ⟨st.remaining - ord.amount, 0⟩).map
           (fun r => { r with orders := ord :: r.orders })) ∧
    (∀ (env : List MergeEnvStep) (st : MergeState) (r : MergeRun),
       runMerge limit env st = some r →
       (r.outcome = .completed ∧ r.final.remaining ≤ 0) ∨
       (r.outcome = .exhausted ∧ limit ≤ r.final.retry) ∨
       r.outcome = .emptyBook ∨ r.outcome = .fundsAbort) ∧
    (∀ (f : ℕ → MergeEnvStep) (st : MergeState),
       (∀ i, GoodMergeStep (f i)) → IsTokenMultiple st.remaining →
       ∃ n : ℕ, (runMerge limit ((List.range n).map f) st).isSome = true) := by
  refine ⟨mergeOrder_cons, ?_, runMerge_outcomes limit, ?_⟩
  · intro e rest st ord hr0 hretry hmo hsucc
    rw [runMerge, if_neg hr0, if_neg (not_le.mpr hretry)]
    simp only [hmo]
    rw [if_pos hsucc]
  · intro f st hgood hmul
    refine ⟨mergeMeasure limit st + 1, runMerge_isSome limit _ st ?_ hmul ?_⟩
    · intro x hx
      obtain ⟨i, -, rfl⟩ := List.mem_map.mp hx
      exact hgood i
    · rw [List.length_map, List.length_range]
      omega

/-- C3 counterexample: with a best bid of 0.00005 tokens at $0.50 that
always fills, the submitted amount is `roundTokens 0.00005 = 0` — not
`min(remaining, bestBidSize) = 0.00005` — and the loop never terminates: it
resells 0 tokens forever, with the retry counter reset on every success. -/
theorem merge_loop_claim_cex :
    (mergeOrder ⟨1, 0⟩ [⟨1/2, 1/20000⟩] = some ⟨0, 1/2⟩ ∧
      (0:ℚ) ≠ min 1 (1/20000)) ∧
    ¬ ∃ n : ℕ, (runMerge 3 ((List.range n).map
        (fun _ => ⟨[⟨1/2, 1/20000⟩], ⟨true, none⟩⟩)) ⟨1, 0⟩).isSome = true := by
  have hmax : maxPriceBid [⟨(1:ℚ)/2, 1/20000⟩] ⟨1/2, 1/20000⟩ = ⟨1/2, 1/20000⟩ := by
    simp [maxPriceBid]
  have hmo : mergeOrder ⟨1, 0⟩ [⟨1/2, 1/20000⟩] = some ⟨0, 1/2⟩ := by
    rw [mergeOrder_cons, hmax]
    have h1 : roundTokens (min (1:ℚ) (1/20000)) = 0 := by
      rw [min_eq_right (by norm_num : (1:ℚ)/20000 ≤ 1)]
      norm_num [roundTokens, roundToDecimals]
    have h2 : roundPrice ((1:ℚ)/2) = 1/2 := roundPrice_of_grid 50 (by norm_num)
    rw [h1, h2]
  have hconst : ∀ (env : List MergeEnvStep),
      (∀ x ∈ env, x = ⟨[⟨1/2, 1/20000⟩], ⟨true, none⟩⟩) →
      runMerge 3 env ⟨1, 0⟩ = none := by
    intro env
    induction env with
    | nil =>
      intro _
      rw [runMerge]
      norm_num
    | cons e rest ih =>
      intro hall
      have he : e = ⟨[⟨1/2, 1/20000⟩], ⟨true, none⟩⟩ :=
        hall e (List.mem_cons_self e rest)
      subst he
      rw [runMerge, if_neg (by norm_num : ¬((1:ℚ) ≤ 0)),
        if_neg (by omega : ¬(3 ≤ 0))]
      simp only [hmo]
      rw [if_pos trivial]
      have hst : (⟨(1:ℚ) - 0, 0⟩ : MergeState) = ⟨1, 0⟩ := by norm_num
      rw [hst, ih (fun x hx => hall x (List.mem_cons_of_mem _ hx))]
      rfl
  refine ⟨⟨hmo, by norm_num [min_def]⟩, ?_⟩
  rintro ⟨n, hsome⟩
  rw [hconst _ ?_] at hsome
  · simp at hsome
  · intro x hx
    obtain ⟨i, -, rfl⟩ := List.mem_map.mp hx
    rfl

/-- C3 witness: a benign constant environment (best bid 10 tokens at $0.50,
every order filling) with one token held terminates, and all four hypotheses
of the amended statement hold there. -/
theorem merge_loop_spec_witness :
    (∀ i : ℕ, GoodMergeStep ((fun _ => (⟨[⟨1/2, 10⟩], ⟨true, none⟩⟩ : MergeEnvStep)) i)) ∧
    IsTokenMultiple (1:ℚ) ∧
    ∃ n : ℕ, (runMerge 2 ((List.range n).map
        (fun _ => ⟨[⟨1/2, 10⟩], ⟨true, none⟩⟩)) ⟨1, 0⟩).isSome = true := by
  have hgood : ∀ i : ℕ,
      GoodMergeStep (⟨[⟨1/2, 10⟩], ⟨true, none⟩⟩ : MergeEnvStep) := by
    intro i b rest h
    injection h with hb hr
    subst hb
    subst hr
    have hmax : maxPriceBid [⟨(1:ℚ)/2, 10⟩] ⟨1/2, 10⟩ = ⟨1/2, 10⟩ := by
      simp [maxPriceBid]
    rw [hmax]
    norm_num [roundTokens, roundToDecimals]
  have hmul : IsTokenMultiple (1:ℚ) := ⟨10 ^ 4, by norm_num⟩
  exact ⟨hgood, hmul, (merge_loop_spec 2).2.2.2 _ ⟨1, 0⟩ hgood hmul⟩

/-! ### C8: funds/allowance errors abort the whole trade immediately -/

/-- C8: in all three execution kinds, a response classified as insufficient
balance/allowance ends the loop at that very iteration — the run returns
with the rest of the environment unconsumed, so no further order is
submitted for the trade — and the final activity-store write marks the trade
terminal with the retry annotation set to the retry limit. -/
theorem funds_abort_spec (limit : ℕ) :
    (∀ (e : MergeEnvStep) (rest : List MergeEnvStep) (st : MergeState) (ord : SellOrder),
       ¬ st.remaining ≤ 0 → st.retry < limit →
       mergeOrder st e.bids = some ord → e.resp.success = false →
       isInsufficientBalanceOrAllowanceError e.resp.error = true →
       runMerge limit (e :: rest) st = some ⟨.fundsAbort, st, [ord], rest⟩) ∧
    (∀ st : MergeState,
       mergeFinalUpdate limit .fundsAbort st = ⟨true, some limit, none⟩) ∧
    (∀ (skip : Bool) (tradePrice : ℚ) (e : BuyEnvStep) (rest : List BuyEnvStep)
       (st : BuyState) (ord : BuyOrder) (res : OrderResult),
       ¬ st.remaining ≤ 0 → st.retry < limit →
       buyPlan skip tradePrice st.remaining e.asks = .submit ord →
       e.resp = .responded res → res.success = false →
       isInsufficientBalanceOrAllowanceError res.error = true →
       runBuy skip tradePrice limit (e :: rest) st = some ⟨.fundsAbort, st, [ord], rest⟩) ∧
    (∀ st : BuyState,
       buyFinalUpdate limit .fundsAbort st = ⟨true, some limit, some st.totalBoughtTokens⟩) ∧
    (∀ (e : MergeEnvStep) (rest : List MergeEnvStep) (st : SellState)
       (b : BookLevel) (bs : List BookLevel),
       ¬ st.remaining ≤ 0 → st.retry < limit → e.bids = b :: bs →
       ¬ st.remaining < MIN_ORDER_SIZE_TOKENS →
       ¬ roundTokens (min st.remaining (maxPriceBid (b :: bs) b).size) <
           MIN_ORDER_SIZE_TOKENS →
       e.resp.success = false →
       isInsufficientBalanceOrAllowanceError e.resp.error = true →
       runSell limit (e :: rest) st = some ⟨.fundsAbort, st,
         [⟨roundTokens (min st.remaining (maxPriceBid (b :: bs) b).size),
           roundPrice (maxPriceBid (b :: bs) b).price⟩], rest⟩) ∧
    (∀ st : SellState,
       sellFinalUpdate limit .fundsAbort st = ⟨true, some limit, none⟩) := by
  refine ⟨?_, fun _ => rfl, ?_, fun _ => rfl, ?_, fun _ => rfl⟩
  · intro e rest st ord hr0 hretry hmo hsucc hfunds
    rw [runMerge, if_neg hr0, if_neg (not_le.mpr hretry)]
    simp only [hmo]
    rw [if_neg (by simp [hsucc]), if_pos hfunds]
  · intro skip tradePrice e rest st ord res hr0 hretry hplan hresp hsucc hfunds
    rw [runBuy, if_neg hr0, if_neg (not_le.mpr hretry)]
    simp only [hplan, hresp]
    rw [if_neg (by simp [hsucc]), if_pos hfunds]
  · intro e rest st b bs hr0 hretry hbids hmin1 hmin2 hsucc hfunds
    rw [runSell, if_neg hr0, if_neg (not_le.mpr hretry)]
    simp only [hbids]
    rw [if_neg hmin1, if_neg hmin2, if_neg (by simp [hsucc]), if_pos hfunds]

/-- C8 witness: a "not enough balance" rejection at the first iteration of
each of the three loops aborts with the untouched remaining environment and
a terminal retry-limit annotation. -/
theorem funds_abort_spec_witness :
    (isInsufficientBalanceOrAllowanceError (some "not enough balance") = true) ∧
    runMerge 3 [⟨[⟨1/2, 10⟩], ⟨false, some "not enough balance"⟩⟩] ⟨1, 0⟩ =
      some ⟨.fundsAbort, ⟨1, 0⟩, [⟨1, 1/2⟩], []⟩ ∧
    mergeFinalUpdate 3 .fundsAbort ⟨1, 0⟩ = ⟨true, some 3, none⟩ ∧
    runBuy true (1/2) 3 [⟨[⟨1/2, 100⟩], .responded ⟨false, some "not enough balance"⟩⟩]
        ⟨2, 0, 0⟩ =
      some ⟨.fundsAbort, ⟨2, 0, 0⟩, [mkBuyOrder true (roundPrice (1/2)) 2], []⟩ ∧
    buyFinalUpdate 3 .fundsAbort ⟨2, 0, 0⟩ = ⟨true, some 3, some 0⟩ ∧
    runSell 3 [⟨[⟨1/2, 10⟩], ⟨false, some "not enough balance"⟩⟩] ⟨1, 0, 0⟩ =
      some ⟨.fundsAbort, ⟨1, 0, 0⟩, [⟨1, 1/2⟩], []⟩ ∧
    sellFinalUpdate 3 .fundsAbort ⟨1, 0, 0⟩ = ⟨true, some 3, none⟩ := by
  have hfunds : isInsufficientBalanceOrAllowanceError (some "not enough balance")
      = true := by decide
  have hrp : roundPrice ((1:ℚ)/2) = 1/2 := roundPrice_of_grid 50 (by norm_num)
  have hmax : maxPriceBid [⟨(1:ℚ)/2, 10⟩] ⟨1/2, 10⟩ = ⟨1/2, 10⟩ := by
    simp [maxPriceBid]
  have hminval : min (1:ℚ) 10 = 1 := by norm_num
  have hrt1 : roundTokens (1:ℚ) = 1 := by norm_num [roundTokens, roundToDecimals]
  have hmo : mergeOrder ⟨1, 0⟩ [⟨1/2, 10⟩] = some ⟨1, 1/2⟩ := by
    rw [mergeOrder_cons, hmax, hminval, hrt1, hrp]
  have hask : (minPriceAsk [⟨(1:ℚ)/2, 100⟩] ⟨1/2, 100⟩).price = 1/2 := by
    simp [minPriceAsk]
  have hford := mkBuyOrder_FOK ((1:ℚ)/2) 2 50 (by norm_num)
  have htokne : (mkBuyOrder true ((1:ℚ)/2) 2).tokens ≠ 0 := by
    rw [hford]
    have hra : roundAmount (2:ℚ) = 2 := by norm_num [roundAmount, roundToDecimals]
    rw [hra]
    norm_num [roundTokens, roundToDecimals]
  have hplan : buyPlan true (1/2) 2 [⟨1/2, 100⟩] =
      .submit (mkBuyOrder true (roundPrice (1/2)) 2) := by
    simp only [buyPlan]
    rw [if_neg (by simp), if_neg (by norm_num [MIN_ORDER_SIZE_USD]),
      if_pos (by norm_num [MAKER_MIN_USD]), hask, hrp, if_neg htokne]
  refine ⟨hfunds, ?_, rfl, ?_, rfl, ?_, rfl⟩
  · exact (funds_abort_spec 3).1 ⟨[⟨1/2, 10⟩], ⟨false, some "not enough balance"⟩⟩
      [] ⟨1, 0⟩ ⟨1, 1/2⟩ (by norm_num) (by decide) hmo rfl hfunds
  · exact (funds_abort_spec 3).2.2.1 true (1/2)
      ⟨[⟨1/2, 100⟩], .responded ⟨false, some "not enough balance"⟩⟩ [] ⟨2, 0, 0⟩
      (mkBuyOrder true (roundPrice (1/2)) 2) ⟨false, some "not enough balance"⟩
      (by norm_num) (by decide) hplan rfl rfl hfunds
  · have hconc := (funds_abort_spec 3).2.2.2.2.1
      ⟨[⟨1/2, 10⟩], ⟨false, some "not enough balance"⟩⟩ [] ⟨1, 0, 0⟩ ⟨1/2, 10⟩ []
      (by norm_num) (by decide) rfl
      (by norm_num [MIN_ORDER_SIZE_TOKENS])
      (by rw [hmax, hminval, hrt1]; norm_num [MIN_ORDER_SIZE_TOKENS]) rfl hfunds
    rw [hconc, hmax, hminval, hrt1, hrp]

end CopyBot
